import Mathlib

/-!
Shallow embedding of the gallery state and controller logic of
`src/index.tsx` (an AI anime wallpaper gallery).

The DOM rendering layer, the network transport to the image-generation
provider and the theme handling are external collaborators and are not
modelled.  The gallery state (the three entity lists, the rotating demo
prompts, the selected aspect ratio), the submit handler
(`handleFormSubmit`), the demo batch (`generateLiveDemos`), the prompt
rotation (`refreshDemoPrompt`) and the persistence layer
(`loadData`/`saveData`) are embedded from the source.  External inputs
(the image client's responses, `Date.now()` readings, `Math.random()`
draws) are passed as explicit arguments.
-/

/-- The aspect ratio enumeration: the TS union type `"9:16" | "1:1" | "16:9"`. -/
inductive AspectRatio where
  | r9x16
  | r1x1
  | r16x9
deriving Repr, DecidableEq

/-- The provenance field of a wallpaper: the TS union type `'user' | 'demo'`. -/
inductive Source where
  | user
  | demo
deriving Repr, DecidableEq

/-- The `Wallpaper` interface of src/index.tsx.  `timestamp` (epoch
milliseconds from `Date.now()`) is a natural number. -/
structure Wallpaper where
  id : String
  prompt : String
  imageUrl : String
  aspectRatio : AspectRatio
  timestamp : Nat
  source : Source
deriving Repr, DecidableEq

/-- The module-level mutable state of src/index.tsx that the gallery logic
reads and writes: the three entity lists, the rotating demo prompt set,
the selected aspect ratio, and the value of the prompt input element
(DOM state read and cleared by the submit handler). -/
structure GalleryState where
  history : List Wallpaper
  demoHistory : List Wallpaper
  allGenerations : List Wallpaper
  demoPrompts : List String
  selectedAspectRatio : AspectRatio
  promptInput : String
deriving Repr, DecidableEq

/-- The state at module initialization: all lists empty, selected ratio
`"9:16"`, empty prompt input. -/
def initialState : GalleryState :=
  { history := []
    demoHistory := []
    allGenerations := []
    demoPrompts := []
    selectedAspectRatio := .r9x16
    promptInput := "" }

/-- The static PROMPT_POOL constant of src/index.tsx. -/
def PROMPT_POOL : List String :=
  [ "Epic anime warrior under the moonlight"
  , "Cute anime girl with cherry blossoms"
  , "A futuristic cityscape in anime style"
  , "Magical girl casting a powerful spell"
  , "Steampunk airship flying through clouds"
  , "A samurai warrior in a neon-lit Tokyo street"
  , "Anime character enjoying a bowl of ramen"
  , "A serene Japanese garden with a pagoda"
  , "Gundam-style mech in a dynamic pose"
  , "A ninja moving silently through the shadows"
  , "Fantasy knight with a glowing sword"
  , "Cyberpunk hacker in a high-tech hideout" ]

/-- Models the JS builtin `String.prototype.trim` (used as
`promptInput.value.trim()`): drops whitespace from both ends of the
character list. -/
def jsTrimList (l : List Char) : List Char :=
  ((l.dropWhile Char.isWhitespace).reverse.dropWhile Char.isWhitespace).reverse

/-- Models the JS builtin `String.prototype.trim` on strings. -/
def jsTrim (s : String) : String :=
  (jsTrimList s.data).asString

/-- The fixed style decoration `generateWallpaper` applies before calling
the image client: the template literal sends
`prompt + ", anime style, high resolution, wallpaper"`. -/
def decoratePrompt (prompt : String) : String :=
  prompt ++ ", anime style, high resolution, wallpaper"

/-- One settled call of `generateWallpaper(prompt, aspectRatio)`.  The
external image client is an explicit function argument; a `none` result
models the catch branch (the client failed and the function returned
null after showing the error toast). -/
def generateWallpaper (client : String → AspectRatio → Option String)
    (prompt : String) (aspectRatio : AspectRatio) : Option String :=
  client (decoratePrompt prompt) aspectRatio

/-- The outcome of one `handleFormSubmit` call: the state after the call,
whether a generation request was issued, and whether `saveData` ran. -/
structure SubmitResult where
  state : GalleryState
  requested : Bool
  saved : Bool

/-- The `handleFormSubmit` handler of src/index.tsx, from the settled
perspective (the placeholder card it prepends and later removes is DOM
state, not gallery state).  `now` is the `Date.now()` reading at commit
time; the source reads the clock twice in the same synchronous block
(`id: Date.now().toString()` and `timestamp: Date.now()`), modelled as
one reading.  A JS integer's `toString()` is its decimal numeral,
modelled by `Nat.repr`. -/
def handleFormSubmit (client : String → AspectRatio → Option String)
    (now : Nat) (s : GalleryState) : SubmitResult :=
  let prompt := jsTrim s.promptInput
  if prompt = "" then ⟨s, false, false⟩
  else
    match generateWallpaper client prompt s.selectedAspectRatio with
    | none => ⟨s, true, false⟩
    | some imageUrl =>
      let newWallpaper : Wallpaper :=
        { id := Nat.repr now
          prompt := prompt
          imageUrl := imageUrl
          aspectRatio := s.selectedAspectRatio
          timestamp := now
          source := .user }
      ⟨{ s with
          history := s.history ++ [newWallpaper]
          allGenerations := s.allGenerations ++ [newWallpaper]
          promptInput := "" }, true, true⟩

/-- One slot of a demo batch: the prompt of slot `i` of `initialPrompts`,
the settled value of that slot's `generateWallpaper` call (`none` models
failure), and the `Date.now()` reading observed when that slot's `.then`
callback ran (its settlement time). -/
structure DemoSlot where
  prompt : String
  result : Option String
  settledAt : Nat
deriving Repr, DecidableEq

/-- Fallback slot for out-of-range reads. -/
def defSlot : DemoSlot := ⟨"", none, 0⟩

/-- The id string of a committed demo wallpaper, the template literal
`demo-MILLIS-INDEX` built from the settlement-time clock reading and the
slot index. -/
def demoId (t i : Nat) : String :=
  "demo-" ++ Nat.repr t ++ "-" ++ Nat.repr i

/-- The wallpaper built in slot `i`'s `.then` callback when its request
succeeded with `url`. -/
def demoWallpaper (i : Nat) (slot : DemoSlot) (url : String) : Wallpaper :=
  { id := demoId slot.settledAt i
    prompt := slot.prompt
    imageUrl := url
    aspectRatio := .r9x16
    timestamp := slot.settledAt
    source := .demo }

/-- The array `await Promise.all(promises)` of `generateLiveDemos`,
starting at slot index `start`: element `i` holds slot `i`'s value
(`Promise.all` returns results in the order of its input array,
regardless of the order in which the promises settled). -/
def demoPromises : Nat → List DemoSlot → List (Option Wallpaper)
  | _, [] => []
  | i, slot :: rest =>
    (slot.result.map fun url => demoWallpaper i slot url) :: demoPromises (i + 1) rest

/-- The `results` array of `generateLiveDemos`: the settled values of the
promises, with the nulls of failed slots removed by `.filter(Boolean)`. -/
def demoBatchResults (slots : List DemoSlot) : List Wallpaper :=
  (demoPromises 0 slots).filterMap id

/-- The gallery-state effect of one `generateLiveDemos` run once every
request has settled: each successful result is pushed to `demoHistory`
and to `allGenerations` in the order of the `results` array; the boolean
records whether `saveData` ran (`if (results.length > 0)`).  The shuffled
choice of `initialPrompts` and each request's outcome and settlement
clock reading are carried by `slots`. -/
def generateLiveDemos (slots : List DemoSlot) (s : GalleryState) :
    GalleryState × Bool :=
  let results := demoBatchResults slots
  ({ s with
      demoHistory := s.demoHistory ++ results
      allGenerations := s.allGenerations ++ results },
    decide (0 < results.length))

/-- Insertion step for `settlementOrder`: place index `i` before the
first already-placed index whose slot settled no earlier. -/
def insertBySettle (slots : List DemoSlot) (i : Nat) : List Nat → List Nat
  | [] => [i]
  | j :: rest =>
    if (slots.getD i defSlot).settledAt ≤ (slots.getD j defSlot).settledAt
    then i :: j :: rest
    else j :: insertBySettle slots i rest

/-- The slot indices of a demo batch listed in settlement order
(ascending settlement clock reading, ties by slot index).  This is the
order the specification says the batch commits in; it is defined here
only to compare against what the code does. -/
def settlementOrder (slots : List DemoSlot) : List Nat :=
  (List.range slots.length).foldr (insertBySettle slots) []

/-- The successful results of a demo batch listed in settlement order:
the committed list the specification describes for `generateLiveDemos`.
Defined from the spec's words, to be compared with `demoBatchResults`
(which follows the source). -/
def settlementResults (slots : List DemoSlot) : List Wallpaper :=
  (settlementOrder slots).filterMap fun i =>
    (slots.getD i defSlot).result.map fun url =>
      demoWallpaper i (slots.getD i defSlot) url

/-- One draw of the rejection loop in `refreshDemoPrompt`:
`PROMPT_POOL[Math.floor(Math.random() * PROMPT_POOL.length)]`.  The
random source is modelled as a stream `sigma` of naturals; the reduction
modulo the pool length models `Math.floor(Math.random() * length)`
landing in `[0, length)`. -/
def drawAt (sigma : Nat → Nat) (k : Nat) : String :=
  PROMPT_POOL.getD (sigma k % PROMPT_POOL.length) ""

/-- The do/while rejection loop of `refreshDemoPrompt`, drawing at
positions `k, k+1, ...` of the random stream until the drawn prompt is
not in `current`; `fuel` bounds the number of draws we run it for, and
`none` means the loop had not exited within `fuel` draws. -/
def rejectionLoop (sigma : Nat → Nat) (current : List String) :
    Nat → Nat → Option String
  | _, 0 => none
  | k, fuel + 1 =>
    let newPrompt := drawAt sigma k
    if newPrompt ∈ current then rejectionLoop sigma current (k + 1) fuel
    else some newPrompt

/-- The `refreshDemoPrompt` handler of src/index.tsx: locate `usedPrompt`
(`indexOf` returns the list length where JS returns -1, i.e. when the
prompt is absent, and the handler is then a no-op), then rejection-sample
a replacement not currently displayed and write it into the same slot.
`none` means the loop had not terminated within `fuel` draws. -/
def refreshDemoPrompt (sigma : Nat → Nat) (fuel : Nat) (usedPrompt : String)
    (s : GalleryState) : Option GalleryState :=
  let index := s.demoPrompts.indexOf usedPrompt
  if index = s.demoPrompts.length then some s
  else
    match rejectionLoop sigma s.demoPrompts 0 fuel with
    | none => none
    | some newPrompt => some { s with demoPrompts := s.demoPrompts.set index newPrompt }

/-- A localStorage value as the gallery core can observe it through
`JSON.parse`: either a string that parses as an array of wallpapers (in
particular every `JSON.stringify` output of a wallpaper list), or a
string on which `JSON.parse` throws a SyntaxError.  `JSON.stringify` and
`JSON.parse` are JS builtins (external to this repository), modelled by
`stringifyWallpapers` and `parseWallpapers`. -/
inductive StoreValue where
  | wallpapers (l : List Wallpaper)
  | malformed (text : String)
deriving Repr, DecidableEq

/-- Models the JS builtin `JSON.stringify` on a wallpaper list. -/
def stringifyWallpapers (l : List Wallpaper) : StoreValue :=
  .wallpapers l

/-- Models the JS builtin `JSON.parse`; `none` models a thrown
SyntaxError. -/
def parseWallpapers : StoreValue → Option (List Wallpaper)
  | .wallpapers l => some l
  | .malformed _ => none

/-- JS truthiness of a stored string, as tested by `if (savedHistory)`:
false for the empty string (absence, `null`, is modelled by the
surrounding `Option`).  `JSON.stringify` of an array is never empty. -/
def StoreValue.isTruthy : StoreValue → Bool
  | .wallpapers _ => true
  | .malformed text => text != ""

/-- The localStorage string store: a key-value map (single tab, last
write per key wins). -/
def Store : Type :=
  String → Option StoreValue

/-- A store with no keys set. -/
def emptyStore : Store := fun _ => none

/-- Models `localStorage.getItem`. -/
def getItem (store : Store) (key : String) : Option StoreValue :=
  store key

/-- Models `localStorage.setItem`. -/
def setItem (store : Store) (key : String) (v : StoreValue) : Store :=
  fun k => if k = key then some v else store k

/-- One `if (saved) list = JSON.parse(saved)` statement of `loadData`.
`loadData` has no try/catch, so a parse failure throws out of it,
modelled by `Except.error`. -/
def loadKey (saved : Option StoreValue)
    (assign : List Wallpaper → GalleryState → GalleryState)
    (s : GalleryState) : Except String GalleryState :=
  match saved with
  | none => .ok s
  | some v =>
    if v.isTruthy then
      match parseWallpapers v with
      | some l => .ok (assign l s)
      | none => .error "SyntaxError: JSON.parse"
    else .ok s

/-- The `loadData` function of src/index.tsx: read the three keys, then
assign each list from its parsed value when the stored string is truthy.
A parse error propagates to the caller and skips the remaining
assignments. -/
def loadData (store : Store) (s : GalleryState) : Except String GalleryState := do
  let savedHistory := getItem store "userHistory"
  let savedDemoHistory := getItem store "demoHistory"
  let savedAllGenerations := getItem store "allGenerations"
  let s1 ← loadKey savedHistory (fun l t => { t with history := l }) s
  let s2 ← loadKey savedDemoHistory (fun l t => { t with demoHistory := l }) s1
  loadKey savedAllGenerations (fun l t => { t with allGenerations := l }) s2

/-- The `saveData` function of src/index.tsx: serialize each of the three
lists to its own key, overwriting unconditionally. -/
def saveData (s : GalleryState) (store : Store) : Store :=
  setItem
    (setItem
      (setItem store "userHistory" (stringifyWallpapers s.history))
      "demoHistory" (stringifyWallpapers s.demoHistory))
    "allGenerations" (stringifyWallpapers s.allGenerations)

/-- One externally-triggered controller event together with the
environment it ran in (the client's responses and the clock readings):
typing into the prompt input, choosing an aspect ratio
(`handleAspectRatioChange` with a valid button), one settled submit, or
one settled demo batch. -/
inductive Op where
  | typePrompt (v : String)
  | selectRatio (r : AspectRatio)
  | submit (client : String → AspectRatio → Option String) (now : Nat)
  | demoBatch (slots : List DemoSlot)

/-- The gallery-state effect of one event. -/
def applyOp (s : GalleryState) : Op → GalleryState
  | .typePrompt v => { s with promptInput := v }
  | .selectRatio r => { s with selectedAspectRatio := r }
  | .submit client now => (handleFormSubmit client now s).state
  | .demoBatch slots => (generateLiveDemos slots s).1

/-- Run a sequence of events from a starting state. -/
def runOps (ops : List Op) (s : GalleryState) : GalleryState :=
  ops.foldl applyOp s

/-- Three lists such that the third is a merge of the first two: each
element of the third comes from exactly one of the first two, in order. -/
inductive Interleaving {α : Type _} : List α → List α → List α → Prop
  | nil : Interleaving [] [] []
  | left {x : α} {xs ys zs : List α} :
      Interleaving xs ys zs → Interleaving (x :: xs) ys (x :: zs)
  | right {y : α} {xs ys zs : List α} :
      Interleaving xs ys zs → Interleaving xs (y :: ys) (y :: zs)

/-- The lists invariant: `allGenerations` is a merge of `history` and
`demoHistory`. -/
def listsInv (s : GalleryState) : Prop :=
  Interleaving s.history s.demoHistory s.allGenerations

/-- Number of demo slots whose generation request succeeded. -/
def successCount (slots : List DemoSlot) : Nat :=
  slots.countP fun slot => slot.result.isSome

/-- A sample committed wallpaper used in concrete stores. -/
def wTest : Wallpaper :=
  { id := "1", prompt := "p", imageUrl := "u", aspectRatio := .r9x16,
    timestamp := 1, source := .user }

/-- A store whose userHistory value is corrupt while the other two keys
hold parseable wallpaper lists. -/
def corruptStore : Store :=
  setItem
    (setItem
      (setItem emptyStore "userHistory" (.malformed "corrupt"))
      "demoHistory" (.wallpapers [wTest]))
    "allGenerations" (.wallpapers [wTest])

/-- The value `loadData` would leave in one slot when it does not throw:
the parsed stored list when the key holds a truthy value, the prior list
otherwise. -/
def loadedOpt (saved : Option StoreValue) : Option (List Wallpaper) :=
  match saved with
  | none => none
  | some v => if v.isTruthy then parseWallpapers v else none

/-- A store with userHistory absent, a parseable demoHistory, and a
non-truthy (empty string) allGenerations value. -/
def partialStore : Store :=
  setItem (setItem emptyStore "demoHistory" (.wallpapers [wTest]))
    "allGenerations" (.malformed "")

/-- A two-slot batch in which slot 1 settles before slot 0 and both
requests succeed. -/
def outOfOrderSlots : List DemoSlot :=
  [⟨"A", some "uA", 10⟩, ⟨"B", some "uB", 5⟩]

/-- The decimal digit characters of `n`, most significant first: a
structural-recursion description of what `Nat.toDigits 10` computes,
used to reason about the id strings `Nat.repr` produces. -/
def decDigits (n : Nat) : List Char :=
  if _h : n < 10 then [Nat.digitChar n]
  else decDigits (n / 10) ++ [Nat.digitChar (n % 10)]
decreasing_by exact Nat.div_lt_self (by omega) (by omega)

/-- Decimal decoding of a digit-character list, a left inverse used to
prove that distinct clock readings yield distinct id strings. -/
def decodeDigits (l : List Char) : Nat :=
  l.foldl (fun acc c => acc * 10 + (c.toNat - '0'.toNat)) 0

/-- The (settlement time, slot index) pairs a demo batch derives its id
strings from, starting at index `i`. -/
def slotKeys : Nat → List DemoSlot → List (Nat × Nat)
  | _, [] => []
  | i, slot :: rest => (slot.settledAt, i) :: slotKeys (i + 1) rest

/-- The `Date.now()` readings observed by the submit events of a
sequence. -/
def submitNows : List Op → List Nat
  | [] => []
  | .submit _ now :: rest => now :: submitNows rest
  | .typePrompt _ :: rest => submitNows rest
  | .selectRatio _ :: rest => submitNows rest
  | .demoBatch _ :: rest => submitNows rest

/-- The (settlement time, slot index) id keys of every demo slot of every
demo batch of a sequence. -/
def demoKeys : List Op → List (Nat × Nat)
  | [] => []
  | .demoBatch slots :: rest => slotKeys 0 slots ++ demoKeys rest
  | .typePrompt _ :: rest => demoKeys rest
  | .selectRatio _ :: rest => demoKeys rest
  | .submit _ _ :: rest => demoKeys rest

theorem Interleaving.ofLeft {α : Type _} : ∀ l : List α, Interleaving l [] l
  | [] => .nil
  | _ :: rest => .left (Interleaving.ofLeft rest)

theorem Interleaving.ofRight {α : Type _} : ∀ l : List α, Interleaving [] l l
  | [] => .nil
  | _ :: rest => .right (Interleaving.ofRight rest)

theorem Interleaving.appendLeft {α : Type _} {xs ys zs : List α} (l : List α)
    (h : Interleaving xs ys zs) : Interleaving (xs ++ l) ys (zs ++ l) := by
  induction h with
  | nil => simpa using Interleaving.ofLeft l
  | left _ ih => exact .left ih
  | right _ ih => exact .right ih

theorem Interleaving.appendRight {α : Type _} {xs ys zs : List α} (l : List α)
    (h : Interleaving xs ys zs) : Interleaving xs (ys ++ l) (zs ++ l) := by
  induction h with
  | nil => simpa using Interleaving.ofRight l
  | left _ ih => exact .left ih
  | right _ ih => exact .right ih

theorem Interleaving.length_eq {α : Type _} {xs ys zs : List α}
    (h : Interleaving xs ys zs) : zs.length = xs.length + ys.length := by
  induction h with
  | nil => rfl
  | left _ ih => simp [ih]; omega
  | right _ ih => simp [ih]; omega

theorem Interleaving.count_eq {α : Type _} [DecidableEq α] {xs ys zs : List α}
    (h : Interleaving xs ys zs) (a : α) :
    zs.count a = xs.count a + ys.count a := by
  induction h with
  | nil => rfl
  | left _ ih => simp [List.count_cons, ih]; omega
  | right _ ih => simp [List.count_cons, ih]; omega

theorem Interleaving.mem_iff {α : Type _} {xs ys zs : List α}
    (h : Interleaving xs ys zs) (a : α) : a ∈ zs ↔ a ∈ xs ∨ a ∈ ys := by
  induction h with
  | nil => simp
  | left _ ih => simp [ih]; tauto
  | right _ ih => simp [ih]; tauto

theorem Interleaving.map {α β : Type _} (f : α → β) {xs ys zs : List α}
    (h : Interleaving xs ys zs) :
    Interleaving (xs.map f) (ys.map f) (zs.map f) := by
  induction h with
  | nil => exact .nil
  | left _ ih => exact .left ih
  | right _ ih => exact .right ih

theorem Interleaving.nodup {α : Type _} {xs ys zs : List α}
    (h : Interleaving xs ys zs) (hx : xs.Nodup) (hy : ys.Nodup)
    (hd : ∀ a ∈ xs, a ∉ ys) : zs.Nodup := by
  induction h with
  | nil => exact List.nodup_nil
  | @left x xs ys zs h ih =>
    rw [List.nodup_cons] at hx ⊢
    refine ⟨fun hmem => ?_, ih hx.2 hy (fun a ha => hd a (List.mem_cons_of_mem _ ha))⟩
    rcases (h.mem_iff x).mp hmem with h1 | h2
    · exact hx.1 h1
    · exact hd x (List.mem_cons_self _ _) h2
  | @right y xs ys zs h ih =>
    rw [List.nodup_cons] at hy ⊢
    refine ⟨fun hmem => ?_, ih hx hy.2 (fun a ha hmem => hd a ha (List.mem_cons_of_mem _ hmem))⟩
    rcases (h.mem_iff y).mp hmem with h1 | h2
    · exact hd y h1 (List.mem_cons_self _ _)
    · exact hy.1 h2

/-- Case analysis of `handleFormSubmit`: either the state is untouched
(empty trimmed prompt, or generation failure), or exactly one new
wallpaper, with id derived from the clock, trimmed prompt, selected
ratio and user source, is appended to both `history` and
`allGenerations` and the input is cleared. -/
theorem handleFormSubmit_state_cases (client : String → AspectRatio → Option String)
    (now : Nat) (s : GalleryState) :
    (handleFormSubmit client now s).state = s ∨
    ∃ w : Wallpaper, w.id = Nat.repr now ∧ w.source = .user ∧
      w.prompt = jsTrim s.promptInput ∧ w.aspectRatio = s.selectedAspectRatio ∧
      (handleFormSubmit client now s).state =
        { s with
            history := s.history ++ [w]
            allGenerations := s.allGenerations ++ [w]
            promptInput := "" } := by
  unfold handleFormSubmit
  by_cases hp : jsTrim s.promptInput = ""
  · simp [hp]
  · simp only [hp, if_false]
    cases hgen : generateWallpaper client (jsTrim s.promptInput) s.selectedAspectRatio with
    | none => simp
    | some url =>
      right
      exact ⟨_, rfl, rfl, rfl, rfl, rfl⟩

theorem applyOp_listsInv (s : GalleryState) (op : Op) (h : listsInv s) :
    listsInv (applyOp s op) := by
  cases op with
  | typePrompt v => exact h
  | selectRatio r => exact h
  | submit client now =>
    rcases handleFormSubmit_state_cases client now s with hc | ⟨w, _, _, _, _, hc⟩
    · simpa [applyOp, hc] using h
    · simpa [applyOp, hc, listsInv] using h.appendLeft [w]
  | demoBatch slots =>
    simpa [applyOp, generateLiveDemos, listsInv] using
      h.appendRight (demoBatchResults slots)

theorem runOps_listsInv (ops : List Op) (s : GalleryState) (h : listsInv s) :
    listsInv (runOps ops s) := by
  induction ops generalizing s with
  | nil => exact h
  | cons op rest ih => exact ih _ (applyOp_listsInv s op h)

/-- C2: after every event sequence from the empty state, `allGenerations`
has length `history.length + demoHistory.length`, is a merge of
`history` and `demoHistory` (each committed entity appears in it in its
committed relative order), and every wallpaper occurs in it exactly as
often as in `history` and `demoHistory` together. -/
theorem allGenerations_merges_histories (ops : List Op) :
    (runOps ops initialState).allGenerations.length
        = (runOps ops initialState).history.length
          + (runOps ops initialState).demoHistory.length ∧
    Interleaving (runOps ops initialState).history
      (runOps ops initialState).demoHistory
      (runOps ops initialState).allGenerations ∧
    ∀ w : Wallpaper,
      (runOps ops initialState).allGenerations.count w
        = (runOps ops initialState).history.count w
          + (runOps ops initialState).demoHistory.count w := by
  have h := runOps_listsInv ops initialState .nil
  exact ⟨h.length_eq, h, h.count_eq⟩

/-- C6: a submit on an empty-after-trim prompt is a no-op: state (all
lists, demo prompts, selected ratio, input) unchanged, no generation
request issued, no save. -/
theorem submit_blank_prompt_noop (client : String → AspectRatio → Option String)
    (now : Nat) (s : GalleryState) (h : jsTrim s.promptInput = "") :
    handleFormSubmit client now s = ⟨s, false, false⟩ := by
  simp [handleFormSubmit, h]

theorem submit_blank_prompt_noop_witness :
    jsTrim "   " = "" ∧
    handleFormSubmit (fun _ _ => some "url") 7
        { initialState with promptInput := "   " }
      = ⟨{ initialState with promptInput := "   " }, false, false⟩ :=
  ⟨by decide, submit_blank_prompt_noop (fun _ _ => some "url") 7
    { initialState with promptInput := "   " } (by decide)⟩

/-- C5: with a nonempty trimmed prompt, a submit whose generation request
succeeds appends exactly one user-sourced wallpaper (carrying the
trimmed prompt and the selected ratio) to `history` and to
`allGenerations` and saves once; a submit whose request fails leaves the
state unchanged and does not save. -/
theorem submit_success_appends_one (client : String → AspectRatio → Option String)
    (now : Nat) (s : GalleryState) (h : jsTrim s.promptInput ≠ "") :
    (∀ url,
      generateWallpaper client (jsTrim s.promptInput) s.selectedAspectRatio = some url →
      ∃ w : Wallpaper, w.source = .user ∧ w.prompt = jsTrim s.promptInput ∧
        w.aspectRatio = s.selectedAspectRatio ∧ w.imageUrl = url ∧
        (handleFormSubmit client now s).state.history = s.history ++ [w] ∧
        (handleFormSubmit client now s).state.allGenerations = s.allGenerations ++ [w] ∧
        (handleFormSubmit client now s).state.demoHistory = s.demoHistory ∧
        (handleFormSubmit client now s).saved = true) ∧
    (generateWallpaper client (jsTrim s.promptInput) s.selectedAspectRatio = none →
      (handleFormSubmit client now s).state = s ∧
      (handleFormSubmit client now s).saved = false) := by
  constructor
  · intro url hgen
    refine ⟨⟨Nat.repr now, jsTrim s.promptInput, url, s.selectedAspectRatio, now, .user⟩,
      rfl, rfl, rfl, rfl, ?_, ?_, ?_, ?_⟩ <;> simp [handleFormSubmit, h, hgen]
  · intro hgen
    simp [handleFormSubmit, h, hgen]

theorem submit_success_appends_one_witness :
    jsTrim "hi" ≠ "" ∧
    ∃ w : Wallpaper, w.source = .user ∧ w.prompt = jsTrim "hi" ∧
      w.aspectRatio = AspectRatio.r9x16 ∧ w.imageUrl = "url" ∧
      (handleFormSubmit (fun _ _ => some "url") 7
        { initialState with promptInput := "hi" }).state.history = [] ++ [w] ∧
      (handleFormSubmit (fun _ _ => some "url") 7
        { initialState with promptInput := "hi" }).state.allGenerations = [] ++ [w] ∧
      (handleFormSubmit (fun _ _ => some "url") 7
        { initialState with promptInput := "hi" }).state.demoHistory = [] ∧
      (handleFormSubmit (fun _ _ => some "url") 7
        { initialState with promptInput := "hi" }).saved = true :=
  ⟨by decide,
    (submit_success_appends_one (fun _ _ => some "url") 7
      { initialState with promptInput := "hi" } (by decide)).1 "url" rfl⟩

theorem demoBatchResults_aux (slots : List DemoSlot) :
    ∀ i : Nat, ((demoPromises i slots).filterMap id).length = successCount slots := by
  induction slots with
  | nil => intro i; rfl
  | cons slot rest ih =>
    intro i
    cases hres : slot.result with
    | none => simp [demoPromises, hres, successCount, List.countP_cons] at ih ⊢; exact ih (i+1)
    | some url =>
      simp [demoPromises, hres, successCount, List.countP_cons] at ih ⊢
      exact ih (i+1)

theorem demoBatchResults_length (slots : List DemoSlot) :
    (demoBatchResults slots).length = successCount slots :=
  demoBatchResults_aux slots 0

/-- C7: a settled demo batch over any slots grows `demoHistory` and
`allGenerations` each by exactly the number of successful requests, and
`saveData` runs iff at least one request succeeded. -/
theorem demoBatch_grows_by_success_count (slots : List DemoSlot) (s : GalleryState) :
    (generateLiveDemos slots s).1.demoHistory.length
        = s.demoHistory.length + successCount slots ∧
    (generateLiveDemos slots s).1.allGenerations.length
        = s.allGenerations.length + successCount slots ∧
    ((generateLiveDemos slots s).2 = true ↔ 0 < successCount slots) := by
  refine ⟨?_, ?_, ?_⟩ <;>
    simp [generateLiveDemos, demoBatchResults_length slots]

theorem demoPromises_mem_aux (slots : List DemoSlot) :
    ∀ i : Nat, ∀ w : Wallpaper, some w ∈ demoPromises i slots →
      w.aspectRatio = AspectRatio.r9x16 ∧ w.source = Source.demo := by
  induction slots with
  | nil => intro i w hw; simp [demoPromises] at hw
  | cons slot rest ih =>
    intro i w hw
    simp only [demoPromises, List.mem_cons] at hw
    rcases hw with hw | hw
    · cases hres : slot.result with
      | none => rw [hres] at hw; simp at hw
      | some url =>
        rw [hres] at hw
        simp only [Option.map_some', Option.some.injEq] at hw
        subst hw; exact ⟨rfl, rfl⟩
    · exact ih (i+1) w hw

theorem demoBatchResults_mem_aux (slots : List DemoSlot) :
    ∀ w ∈ demoBatchResults slots,
      w.aspectRatio = AspectRatio.r9x16 ∧ w.source = Source.demo := by
  intro w hw
  simp only [demoBatchResults, List.mem_filterMap, id_eq] at hw
  rcases hw with ⟨ow, how, rfl⟩
  exact demoPromises_mem_aux slots 0 _ how

/-- C10: the demo batch commits exactly its successful results, built
without reading the selected configuration, and every committed demo
entity carries the fixed aspect ratio 9:16 and the demo source. -/
theorem demoBatch_ignores_selected_ratio (slots : List DemoSlot) (s : GalleryState) :
    (generateLiveDemos slots s).1.demoHistory
        = s.demoHistory ++ demoBatchResults slots ∧
    (generateLiveDemos slots s).1.allGenerations
        = s.allGenerations ++ demoBatchResults slots ∧
    ∀ w ∈ demoBatchResults slots,
      w.aspectRatio = AspectRatio.r9x16 ∧ w.source = Source.demo :=
  ⟨rfl, rfl, demoBatchResults_mem_aux slots⟩

theorem demoBatch_ignores_selected_ratio_witness :
    demoWallpaper 0 ⟨"p", some "u", 3⟩ "u" ∈ demoBatchResults [⟨"p", some "u", 3⟩] ∧
    (demoWallpaper 0 ⟨"p", some "u", 3⟩ "u").aspectRatio = AspectRatio.r9x16 ∧
    (demoWallpaper 0 ⟨"p", some "u", 3⟩ "u").source = Source.demo :=
  ⟨by decide,
    (demoBatch_ignores_selected_ratio [⟨"p", some "u", 3⟩]
      { initialState with selectedAspectRatio := .r1x1 }).2.2
      (demoWallpaper 0 ⟨"p", some "u", 3⟩ "u") (by decide)⟩

/-- C9: loading right after saving reconstructs the three lists exactly,
entity-for-entity and in order, from any prior store contents and into
any in-memory state; the other state fields are untouched. -/
theorem load_after_save_roundtrip (s t : GalleryState) (store : Store) :
    loadData (saveData s store) t =
      .ok { t with
              history := s.history
              demoHistory := s.demoHistory
              allGenerations := s.allGenerations } := by
  rfl

/-- C1 counterexample: on a store whose userHistory value fails to parse
while the other two keys hold parseable lists, `loadData` does not
degrade that list to empty and load the others: the parse error
propagates to the caller and nothing else is loaded. -/
theorem loadData_corruption_throws :
    loadData corruptStore initialState = .error "SyntaxError: JSON.parse" := by
  rfl

theorem except_bind_ok {A B : Type} (a : A) (f : A → Except String B) :
    (Except.ok a >>= f : Except String B) = f a := rfl

theorem loadKey_ok (saved : Option StoreValue)
    (assign : List Wallpaper → GalleryState → GalleryState) (s : GalleryState)
    (h : ∀ v, saved = some v → v.isTruthy = true → (parseWallpapers v).isSome) :
    loadKey saved assign s = .ok ((loadedOpt saved).elim s fun l => assign l s) := by
  cases saved with
  | none => rfl
  | some v =>
    by_cases ht : v.isTruthy = true
    · cases hp : parseWallpapers v with
      | none =>
        have := h v rfl ht
        rw [hp] at this
        simp at this
      | some l => simp [loadKey, loadedOpt, ht, hp]
    · simp [loadKey, loadedOpt, ht]

/-- C1 amended: when every stored value among the three keys is either
absent, non-truthy (the empty string), or parseable, `loadData` returns
normally and assigns each list its parsed value, keeping the prior
(initially empty) list for absent or non-truthy keys.  When a present
truthy value fails to parse, `loadData` instead throws (see the
counterexample). -/
theorem loadData_loads_parseable_keys (store : Store) (t : GalleryState)
    (h1 : ∀ v, getItem store "userHistory" = some v → v.isTruthy = true →
      (parseWallpapers v).isSome)
    (h2 : ∀ v, getItem store "demoHistory" = some v → v.isTruthy = true →
      (parseWallpapers v).isSome)
    (h3 : ∀ v, getItem store "allGenerations" = some v → v.isTruthy = true →
      (parseWallpapers v).isSome) :
    loadData store t =
      .ok { t with
              history := (loadedOpt (getItem store "userHistory")).getD t.history
              demoHistory := (loadedOpt (getItem store "demoHistory")).getD t.demoHistory
              allGenerations :=
                (loadedOpt (getItem store "allGenerations")).getD t.allGenerations } := by
  rw [loadData]
  rw [loadKey_ok _ _ _ h1]
  rw [except_bind_ok]
  rw [loadKey_ok _ _ _ h2]
  rw [except_bind_ok]
  rw [loadKey_ok _ _ _ h3]
  cases loadedOpt (getItem store "userHistory") <;>
    cases loadedOpt (getItem store "demoHistory") <;>
      cases loadedOpt (getItem store "allGenerations") <;>
        simp [Option.elim, Option.getD]

theorem loadData_loads_parseable_keys_witness :
    loadData partialStore initialState =
      .ok { initialState with
              history := (loadedOpt (getItem partialStore "userHistory")).getD
                initialState.history
              demoHistory := (loadedOpt (getItem partialStore "demoHistory")).getD
                initialState.demoHistory
              allGenerations := (loadedOpt (getItem partialStore "allGenerations")).getD
                initialState.allGenerations } :=
  loadData_loads_parseable_keys partialStore initialState
    (fun _ hv _ => Option.noConfusion hv)
    (fun v hv _ => by
      have h := Option.some.inj hv
      subst h
      decide)
    (fun v hv ht => by
      have h := Option.some.inj hv
      subst h
      exact absurd ht (by decide))

/-- C4 counterexample: in a batch whose second slot settles first, the
settlement order is slot 1 before slot 0, yet the code commits slot 0's
result first: `Promise.all` hands `generateLiveDemos` the results in
submission order, so the committed order is not the settlement order. -/
theorem demoBatch_not_settlement_order :
    settlementOrder outOfOrderSlots = [1, 0] ∧
    (generateLiveDemos outOfOrderSlots initialState).1.demoHistory ≠
      settlementResults outOfOrderSlots := by
  decide

theorem demoBatchResults_pairs_aux (slots : List DemoSlot) :
    ∀ i : Nat,
      ((demoPromises i slots).filterMap id).map (fun w => (w.prompt, w.imageUrl))
        = slots.filterMap fun slot => slot.result.map fun url => (slot.prompt, url) := by
  induction slots with
  | nil => intro i; rfl
  | cons slot rest ih =>
    intro i
    cases hres : slot.result with
    | none => simp [demoPromises, hres, List.filterMap_cons, ih (i+1)]
    | some url => simp [demoPromises, hres, List.filterMap_cons, ih (i+1), demoWallpaper]

/-- C4 amended: the demo batch commits its successful results in
submission order: the (prompt, imageUrl) sequence appended to
`demoHistory` is the success-filtered slot sequence in slot order,
whatever the settlement times were. -/
theorem demoBatch_commits_in_submission_order (slots : List DemoSlot) (s : GalleryState) :
    (((generateLiveDemos slots s).1.demoHistory.drop s.demoHistory.length).map
        fun w => (w.prompt, w.imageUrl))
      = slots.filterMap fun slot => slot.result.map fun url => (slot.prompt, url) := by
  have : (generateLiveDemos slots s).1.demoHistory
      = s.demoHistory ++ demoBatchResults slots := rfl
  rw [this, List.drop_left]
  exact demoBatchResults_pairs_aux slots 0

theorem pool_has_fresh (current : List String)
    (h : current.length + 1 ≤ PROMPT_POOL.dedup.length) :
    ∃ q ∈ PROMPT_POOL, q ∉ current := by
  by_contra hc
  push_neg at hc
  have hsub : PROMPT_POOL.dedup.toFinset ⊆ current.toFinset := by
    intro x hx
    rw [List.mem_toFinset] at hx ⊢
    exact hc x (List.dedup_subset _ hx)
  have hnd : PROMPT_POOL.dedup.Nodup := PROMPT_POOL.nodup_dedup
  have hle : PROMPT_POOL.dedup.length ≤ current.length := by
    calc PROMPT_POOL.dedup.length = PROMPT_POOL.dedup.toFinset.card :=
          (List.toFinset_card_of_nodup hnd).symm
      _ ≤ current.toFinset.card := Finset.card_le_card hsub
      _ ≤ current.length := current.toFinset_card_le
  omega

theorem rejectionLoop_finds (sigma : Nat → Nat) (current : List String) :
    ∀ fuel start : Nat, (∃ j < fuel, drawAt sigma (start + j) ∉ current) →
      ∃ p, rejectionLoop sigma current start fuel = some p ∧ p ∉ current := by
  intro fuel
  induction fuel with
  | zero => intro start h; rcases h with ⟨j, hj, _⟩; omega
  | succ fuel ih =>
    intro start h
    by_cases hmem : drawAt sigma start ∈ current
    · rcases h with ⟨j, hj, hesc⟩
      cases j with
      | zero => exact absurd (by simpa using hesc) (by simp [hmem])
      | succ j' =>
        have : ∃ j < fuel, drawAt sigma (start + 1 + j) ∉ current := by
          refine ⟨j', by omega, ?_⟩
          have : start + 1 + j' = start + (j' + 1) := by omega
          rw [this]
          exact hesc
        rcases ih (start + 1) this with ⟨p, hp, hpn⟩
        exact ⟨p, by simp [rejectionLoop, hmem, hp], hpn⟩
    · exact ⟨drawAt sigma start, by simp [rejectionLoop, hmem], hmem⟩

/-- C8: if the prompt pool holds at least one more distinct entry than the
rotating set (which is duplicate-free), then for every fair random
stream (one that eventually draws each pool index), the rejection loop
of `refreshDemoPrompt p` with `p` in the set terminates: some finite
number of draws suffices and the handler returns a new state. -/
theorem refreshDemoPrompt_terminates (sigma : Nat → Nat) (s : GalleryState) (p : String)
    (hfair : ∀ j < PROMPT_POOL.length, ∃ k, sigma k % PROMPT_POOL.length = j)
    (hsize : s.demoPrompts.length + 1 ≤ PROMPT_POOL.dedup.length)
    (_hnodup : s.demoPrompts.Nodup) (hmem : p ∈ s.demoPrompts) :
    ∃ fuel s', refreshDemoPrompt sigma fuel p s = some s' := by
  rcases pool_has_fresh s.demoPrompts hsize with ⟨q, hq, hqn⟩
  rcases List.mem_iff_getElem.mp hq with ⟨j, hj, hgetq⟩
  rcases hfair j hj with ⟨k, hk⟩
  have hdraw : drawAt sigma k = q := by
    rw [drawAt, hk, List.getD_eq_getElem _ _ hj, hgetq]
  have hesc : ∃ i < k + 1, drawAt sigma (0 + i) ∉ s.demoPrompts := by
    refine ⟨k, by omega, ?_⟩
    rw [Nat.zero_add, hdraw]
    exact hqn
  rcases rejectionLoop_finds sigma s.demoPrompts (k + 1) 0 hesc with ⟨np, hnp, _⟩
  refine ⟨k + 1,
    { s with demoPrompts := s.demoPrompts.set (s.demoPrompts.indexOf p) np }, ?_⟩
  have hidx : s.demoPrompts.indexOf p < s.demoPrompts.length :=
    List.indexOf_lt_length.mpr hmem
  rw [refreshDemoPrompt]
  rw [if_neg (by omega), hnp]

theorem refreshDemoPrompt_terminates_witness :
    ∃ fuel s', refreshDemoPrompt (fun k => k) fuel
      "Epic anime warrior under the moonlight"
      { initialState with demoPrompts := ["Epic anime warrior under the moonlight"] }
      = some s' :=
  refreshDemoPrompt_terminates (fun k => k)
    { initialState with demoPrompts := ["Epic anime warrior under the moonlight"] }
    "Epic anime warrior under the moonlight"
    (fun j hj => ⟨j, Nat.mod_eq_of_lt hj⟩)
    (by decide) (by decide) (by decide)

theorem toDigitsCore_eq_decDigits :
    ∀ fuel n : Nat, ∀ ds : List Char, n < fuel →
      Nat.toDigitsCore 10 fuel n ds = decDigits n ++ ds := by
  intro fuel
  induction fuel with
  | zero => intro n ds h; omega
  | succ fuel ih =>
    intro n ds h
    rw [Nat.toDigitsCore]
    by_cases h10 : n / 10 = 0
    · have hn : n < 10 := by omega
      rw [if_pos h10, decDigits, dif_pos hn, Nat.mod_eq_of_lt hn]
      rfl
    · have hn : ¬ n < 10 := fun hlt => h10 (Nat.div_eq_of_lt hlt)
      have hlt : n / 10 < fuel := by
        have := Nat.div_lt_self (show 0 < n by omega) (show 1 < 10 by omega)
        omega
      rw [if_neg h10, ih (n / 10) _ hlt]
      conv_rhs => rw [decDigits, dif_neg hn]
      simp [List.append_assoc]

theorem repr_eq_decDigits (n : Nat) : Nat.repr n = (decDigits n).asString := by
  rw [Nat.repr, Nat.toDigits,
    toDigitsCore_eq_decDigits (n + 1) n [] (Nat.lt_succ_self n), List.append_nil]

theorem repr_data (n : Nat) : (Nat.repr n).data = decDigits n := by
  rw [repr_eq_decDigits]
  rfl

theorem digitChar_decode : ∀ k < 10, (Nat.digitChar k).toNat - '0'.toNat = k := by
  decide

theorem decodeDigits_step (l : List Char) (c : Char) (acc : Nat) :
    (l ++ [c]).foldl (fun acc c => acc * 10 + (c.toNat - '0'.toNat)) acc
      = (l.foldl (fun acc c => acc * 10 + (c.toNat - '0'.toNat)) acc) * 10
        + (c.toNat - '0'.toNat) := by
  rw [List.foldl_append]
  rfl

theorem decodeDigits_decDigits (n : Nat) : decodeDigits (decDigits n) = n := by
  induction n using Nat.strong_induction_on with
  | _ n ih =>
    by_cases h : n < 10
    · rw [decDigits, dif_pos h]
      show 0 * 10 + ((Nat.digitChar n).toNat - '0'.toNat) = n
      rw [digitChar_decode n h]
      omega
    · rw [decDigits, dif_neg h, decodeDigits, decodeDigits_step]
      have ihd := ih (n / 10) (Nat.div_lt_self (by omega) (by omega))
      rw [decodeDigits] at ihd
      rw [ihd, digitChar_decode (n % 10) (Nat.mod_lt _ (by omega))]
      omega

theorem decDigits_injective {m n : Nat} (h : decDigits m = decDigits n) : m = n := by
  have := congrArg decodeDigits h
  rwa [decodeDigits_decDigits, decodeDigits_decDigits] at this

theorem repr_injective {m n : Nat} (h : Nat.repr m = Nat.repr n) : m = n := by
  apply decDigits_injective
  have hd := congrArg String.data h
  rwa [repr_data, repr_data] at hd

theorem decDigits_all_digits (n : Nat) : ∀ c ∈ decDigits n, c.isDigit = true := by
  induction n using Nat.strong_induction_on with
  | _ n ih =>
    intro c hc
    by_cases h : n < 10
    · rw [decDigits, dif_pos h] at hc
      simp only [List.mem_singleton] at hc
      subst hc
      exact (by decide : ∀ k < 10, (Nat.digitChar k).isDigit = true) n h
    · rw [decDigits, dif_neg h] at hc
      rcases List.mem_append.mp hc with hc | hc
      · exact ih (n / 10) (Nat.div_lt_self (by omega) (by omega)) c hc
      · simp only [List.mem_singleton] at hc
        subst hc
        exact (by decide : ∀ k < 10, (Nat.digitChar k).isDigit = true)
          (n % 10) (Nat.mod_lt _ (by omega))

theorem string_data_append (a b : String) : (a ++ b).data = a.data ++ b.data := by
  cases a
  cases b
  rfl

theorem demoId_data (t i : Nat) :
    (demoId t i).data
      = "demo-".data ++ (decDigits t ++ ('-' :: decDigits i)) := by
  rw [demoId, string_data_append, string_data_append, string_data_append,
    repr_data, repr_data]
  simp [List.append_assoc]

theorem sep_split {v1 v2 : List Char} :
    ∀ u1 u2 : List Char, (∀ c ∈ u1, c ≠ '-') → (∀ c ∈ u2, c ≠ '-') →
      u1 ++ '-' :: v1 = u2 ++ '-' :: v2 → u1 = u2 ∧ v1 = v2 := by
  intro u1
  induction u1 with
  | nil =>
    intro u2 _ h2 heq
    cases u2 with
    | nil => simpa using heq
    | cons c cs =>
      simp only [List.nil_append, List.cons_append, List.cons.injEq] at heq
      exact absurd heq.1.symm (h2 c (List.mem_cons_self c cs))
  | cons c cs ih =>
    intro u2 h1 h2 heq
    cases u2 with
    | nil =>
      simp only [List.nil_append, List.cons_append, List.cons.injEq] at heq
      exact absurd heq.1 (h1 c (List.mem_cons_self c cs))
    | cons d ds =>
      simp only [List.cons_append, List.cons.injEq] at heq
      rcases heq with ⟨hcd, htail⟩
      have := ih ds (fun x hx => h1 x (List.mem_cons_of_mem c hx))
        (fun x hx => h2 x (List.mem_cons_of_mem d hx)) htail
      exact ⟨by rw [hcd, this.1], this.2⟩

theorem decDigits_no_dash (n : Nat) : ∀ c ∈ decDigits n, c ≠ '-' := by
  intro c hc he
  subst he
  exact absurd (decDigits_all_digits n '-' hc) (by decide)

theorem demoId_injective {t i t' i' : Nat} (h : demoId t i = demoId t' i') :
    t = t' ∧ i = i' := by
  have hd := congrArg String.data h
  rw [demoId_data, demoId_data] at hd
  have hd' := List.append_cancel_left hd
  have hsplit := sep_split (decDigits t) (decDigits t')
    (decDigits_no_dash t) (decDigits_no_dash t') hd'
  exact ⟨decDigits_injective hsplit.1, decDigits_injective hsplit.2⟩

theorem repr_ne_demoId (n t i : Nat) : Nat.repr n ≠ demoId t i := by
  intro h
  have hd := congrArg String.data h
  rw [repr_data, demoId_data] at hd
  have : '-' ∈ decDigits n := by
    rw [hd]
    simp
  exact absurd (decDigits_all_digits n '-' this) (by decide)

theorem demoPromises_id_key (slots : List DemoSlot) :
    ∀ i : Nat, ∀ w : Wallpaper, some w ∈ demoPromises i slots →
      ∃ t j, w.id = demoId t j ∧ (t, j) ∈ slotKeys i slots := by
  induction slots with
  | nil => intro i w hw; simp [demoPromises] at hw
  | cons slot rest ih =>
    intro i w hw
    simp only [demoPromises, List.mem_cons] at hw
    rcases hw with hw | hw
    · cases hres : slot.result with
      | none => rw [hres] at hw; simp at hw
      | some url =>
        rw [hres] at hw
        simp only [Option.map_some', Option.some.injEq] at hw
        subst hw
        exact ⟨slot.settledAt, i, rfl, by simp [slotKeys]⟩
    · rcases ih (i + 1) w hw with ⟨t, j, hid, hk⟩
      exact ⟨t, j, hid, by simp [slotKeys, hk]⟩

theorem mem_filterMap_id {l : List (Option Wallpaper)} {w : Wallpaper} :
    w ∈ l.filterMap id ↔ some w ∈ l := by
  simp [List.mem_filterMap]

theorem demoBatch_ids_nodup (slots : List DemoSlot) :
    ∀ i : Nat, (slotKeys i slots).Nodup →
      (((demoPromises i slots).filterMap id).map Wallpaper.id).Nodup := by
  induction slots with
  | nil => intro i _; simp [demoPromises]
  | cons slot rest ih =>
    intro i hnd
    rw [slotKeys, List.nodup_cons] at hnd
    cases hres : slot.result with
    | none =>
      simp only [demoPromises, hres, Option.map_none', List.filterMap_cons]
      exact ih (i + 1) hnd.2
    | some url =>
      simp only [demoPromises, hres, Option.map_some', List.filterMap_cons, id_eq,
        List.map_cons]
      rw [List.nodup_cons]
      constructor
      · intro hm
        rcases List.mem_map.mp hm with ⟨w, hw, hid⟩
        rcases demoPromises_id_key rest (i + 1) w (mem_filterMap_id.mp hw) with
          ⟨t, j, hwid, hk⟩
        rw [hwid] at hid
        rcases demoId_injective hid with ⟨ht, hj⟩
        rw [ht, hj] at hk
        exact hnd.1 hk
      · exact ih (i + 1) hnd.2

theorem nodup_append_one {α : Type _} {l : List α} {a : α}
    (h : l.Nodup) (ha : a ∉ l) : (l ++ [a]).Nodup := by
  simp [List.nodup_append, h, ha]

theorem runOps_ids_aux :
    ∀ ops : List Op, ∀ s : GalleryState,
      (submitNows ops).Nodup → (demoKeys ops).Nodup →
      (∀ w ∈ s.history, ∃ n, w.id = Nat.repr n ∧ n ∉ submitNows ops) →
      (∀ w ∈ s.demoHistory, ∃ t i, w.id = demoId t i ∧ (t, i) ∉ demoKeys ops) →
      (s.history.map Wallpaper.id).Nodup →
      (s.demoHistory.map Wallpaper.id).Nodup →
      (∀ w ∈ (runOps ops s).history, ∃ n, w.id = Nat.repr n) ∧
      (∀ w ∈ (runOps ops s).demoHistory, ∃ t i, w.id = demoId t i) ∧
      ((runOps ops s).history.map Wallpaper.id).Nodup ∧
      ((runOps ops s).demoHistory.map Wallpaper.id).Nodup := by
  intro ops
  induction ops with
  | nil =>
    intro s _ _ h3 h4 h5 h6
    exact ⟨fun w hw => ⟨(h3 w hw).choose, (h3 w hw).choose_spec.1⟩,
      fun w hw => ⟨(h4 w hw).choose, (h4 w hw).choose_spec.choose,
        (h4 w hw).choose_spec.choose_spec.1⟩, h5, h6⟩
  | cons op rest ih =>
    intro s h1 h2 h3 h4 h5 h6
    have hrun : runOps (op :: rest) s = runOps rest (applyOp s op) := rfl
    rw [hrun]
    cases op with
    | typePrompt v =>
      exact ih _ h1 h2 h3 h4 h5 h6
    | selectRatio r =>
      exact ih _ h1 h2 h3 h4 h5 h6
    | submit client now =>
      have hnows : submitNows (.submit client now :: rest) = now :: submitNows rest := rfl
      rw [hnows] at h1 h3
      rw [List.nodup_cons] at h1
      have h3' : ∀ w ∈ s.history, ∃ n, w.id = Nat.repr n ∧ n ∉ submitNows rest :=
        fun w hw =>
          let ⟨n, hn1, hn2⟩ := h3 w hw
          ⟨n, hn1, fun hm => hn2 (List.mem_cons_of_mem _ hm)⟩
      rcases handleFormSubmit_state_cases client now s with hc | ⟨w, hid, _, _, _, hc⟩
      · show _ ∧ _ ∧ _ ∧ _
        rw [show applyOp s (.submit client now) = s from hc]
        exact ih s h1.2 h2 h3' h4 h5 h6
      · rw [show applyOp s (.submit client now) =
          { s with history := s.history ++ [w],
                   allGenerations := s.allGenerations ++ [w],
                   promptInput := "" } from hc]
        refine ih
          { s with history := s.history ++ [w],
                   allGenerations := s.allGenerations ++ [w],
                   promptInput := "" } h1.2 h2 ?_ h4 ?_ h6
        · intro x hx
          rcases List.mem_append.mp hx with hx | hx
          · exact h3' x hx
          · rw [List.mem_singleton] at hx
            subst hx
            exact ⟨now, hid, h1.1⟩
        · rw [List.map_append, List.map_singleton]
          apply nodup_append_one h5
          intro hm
          rcases List.mem_map.mp hm with ⟨x, hx, hxid⟩
          rcases h3 x hx with ⟨n, hn1, hn2⟩
          rw [hn1, hid] at hxid
          exact hn2 (by rw [repr_injective hxid]; exact List.mem_cons_self _ _)
    | demoBatch slots =>
      have hkeys : demoKeys (.demoBatch slots :: rest)
          = slotKeys 0 slots ++ demoKeys rest := rfl
      rw [hkeys] at h2 h4
      rw [List.nodup_append] at h2
      rcases h2 with ⟨hk1, hk2, hkdisj⟩
      have h4' : ∀ w ∈ s.demoHistory, ∃ t i, w.id = demoId t i ∧ (t, i) ∉ demoKeys rest :=
        fun w hw =>
          let ⟨t, i, ht1, ht2⟩ := h4 w hw
          ⟨t, i, ht1, fun hm => ht2 (List.mem_append_right _ hm)⟩
      rw [show applyOp s (.demoBatch slots) =
        { s with demoHistory := s.demoHistory ++ demoBatchResults slots,
                 allGenerations := s.allGenerations ++ demoBatchResults slots } from rfl]
      refine ih
        { s with demoHistory := s.demoHistory ++ demoBatchResults slots,
                 allGenerations := s.allGenerations ++ demoBatchResults slots }
        h1 hk2 h3 ?_ h5 ?_
      case _ =>
        intro x hx
        rcases List.mem_append.mp hx with hx | hx
        · exact h4' x hx
        · rcases demoPromises_id_key slots 0 x (mem_filterMap_id.mp hx) with ⟨t, j, hx1, hx2⟩
          refine ⟨t, j, hx1, fun hm => ?_⟩
          exact hkdisj hx2 hm
      case _ =>
        rw [List.map_append]
        rw [List.nodup_append]
        refine ⟨h6, demoBatch_ids_nodup slots 0 hk1, ?_⟩
        intro a ha hb
        rcases List.mem_map.mp ha with ⟨x, hx, hxid⟩
        rcases List.mem_map.mp hb with ⟨y, hy, hyid⟩
        rcases h4 x hx with ⟨t, i, ht1, ht2⟩
        rcases demoPromises_id_key slots 0 y (mem_filterMap_id.mp hy) with ⟨t', j, hy1, hy2⟩
        rw [← hxid, ht1] at hyid
        rw [hy1] at hyid
        rcases demoId_injective hyid.symm with ⟨he1, he2⟩
        rw [← he1, ← he2] at hy2
        exact ht2 (List.mem_append_left _ hy2)

/-- C3 amended: committed ids are unique within `history`, within
`demoHistory` and within `allGenerations` for every event sequence in
which the clock readings of distinct submits are pairwise distinct and
the (settlement time, slot index) pairs of demo slots never repeat
across batches.  (Without those clock conditions uniqueness fails; see
the counterexample.) -/
theorem committed_ids_unique (ops : List Op)
    (h1 : (submitNows ops).Nodup) (h2 : (demoKeys ops).Nodup) :
    ((runOps ops initialState).history.map Wallpaper.id).Nodup ∧
    ((runOps ops initialState).demoHistory.map Wallpaper.id).Nodup ∧
    ((runOps ops initialState).allGenerations.map Wallpaper.id).Nodup := by
  have base := runOps_ids_aux ops initialState h1 h2
    (by intro w hw; simp [initialState] at hw)
    (by intro w hw; simp [initialState] at hw)
    (by simp [initialState]) (by simp [initialState])
  rcases base with ⟨hshape1, hshape2, hnd1, hnd2⟩
  refine ⟨hnd1, hnd2, ?_⟩
  have hinter := (runOps_listsInv ops initialState .nil).map Wallpaper.id
  apply hinter.nodup hnd1 hnd2
  intro a ha hb
  rcases List.mem_map.mp ha with ⟨x, hx, hxid⟩
  rcases List.mem_map.mp hb with ⟨y, hy, hyid⟩
  rcases hshape1 x hx with ⟨n, hn⟩
  rcases hshape2 y hy with ⟨t, i, ht⟩
  rw [← hxid, hn] at hyid
  rw [ht] at hyid
  exact repr_ne_demoId n t i hyid.symm

/-- C3 counterexample: two successful submits that observe the same
`Date.now()` reading (the same millisecond) produce two wallpapers with
the same id `5` in `history` (and in `allGenerations`): ids are not
unconditionally unique within their owning list. -/
theorem committed_ids_not_unique :
    ¬ (((runOps
          [ .typePrompt "a", .submit (fun _ _ => some "u") 5
          , .typePrompt "b", .submit (fun _ _ => some "v") 5 ]
          initialState).history.map Wallpaper.id).Nodup) := by
  decide

theorem committed_ids_unique_witness :
    (submitNows
        [ Op.typePrompt "a", .submit (fun _ _ => some "u") 5
        , .demoBatch [⟨"p", some "w", 9⟩] ]).Nodup ∧
    (demoKeys
        [ Op.typePrompt "a", .submit (fun _ _ => some "u") 5
        , .demoBatch [⟨"p", some "w", 9⟩] ]).Nodup ∧
    (((runOps
        [ Op.typePrompt "a", .submit (fun _ _ => some "u") 5
        , .demoBatch [⟨"p", some "w", 9⟩] ]
        initialState).history.map Wallpaper.id).Nodup ∧
      ((runOps
        [ Op.typePrompt "a", .submit (fun _ _ => some "u") 5
        , .demoBatch [⟨"p", some "w", 9⟩] ]
        initialState).demoHistory.map Wallpaper.id).Nodup ∧
      ((runOps
        [ Op.typePrompt "a", .submit (fun _ _ => some "u") 5
        , .demoBatch [⟨"p", some "w", 9⟩] ]
        initialState).allGenerations.map Wallpaper.id).Nodup) :=
  ⟨by decide, by decide,
    committed_ids_unique
      [ Op.typePrompt "a", .submit (fun _ _ => some "u") 5
      , .demoBatch [⟨"p", some "w", 9⟩] ]
      (by decide) (by decide)⟩
